import Mathlib

/-!
Verification development for the cio utilities module.

The definitions below are a shallow embedding of the functions in
cio/src/utils.rs: the byte trimmer implemented on Vec u8, the
create_or_update_file_in_github_repo reconciler, and the
refresh_db_github_repos database reconciler.  Bytes are modelled as
Nat, byte buffers as List Nat, and the remote GitHub API consumed by
the reconciler as an explicit gateway record holding the results the
remote service would return during one call.  The diffy patch
rendering is an external library; the reconciler is parametrised over
it as a function from the two buffers to the rendered diff string,
exactly as the source only ever observes the rendered string.
-/

/-! ## Byte trimmer: SliceExt::trim for Vec u8 -/

/-- Translation of the nested helper is_whitespace in SliceExt::trim:
a byte is whitespace when it is a tab or a space. -/
def is_whitespace (c : Nat) : Bool :=
  c == 9 || c == 32

/-- Translation of the nested helper is_not_whitespace. -/
def is_not_whitespace (c : Nat) : Bool :=
  !is_whitespace c

/-- Rust Iterator::position: index of the first element satisfying the
predicate, counted from the front. -/
def position (p : Nat → Bool) : List Nat → Option Nat
  | [] => none
  | c :: t => if p c then some 0 else (position p t).map (· + 1)

/-- Rust Iterator::rposition: index, counted from the front, of the last
element satisfying the predicate.  Searching the reversed list gives the
offset from the back. -/
def rposition (p : Nat → Bool) (l : List Nat) : Option Nat :=
  (position p l.reverse).map (fun i => l.length - 1 - i)

/-- Translation of SliceExt::trim for Vec u8: find the first and the last
byte that is not horizontal whitespace and keep the slice between them,
returning the empty buffer when every byte is whitespace. -/
def trim (self : List Nat) : List Nat :=
  match position is_not_whitespace self with
  | some first =>
    match rposition is_not_whitespace self with
    | some last => (self.drop first).take (last + 1 - first)
    | none => []
  | none => []

/-- Modelled from the spec: the trimmer removes exactly the leading and
the trailing tab or space bytes, that is it drops the longest whitespace
prefix and the longest whitespace suffix and nothing else.  Used as the
comparison definition for the refinement claims about trim. -/
def trimSpecWs (b : List Nat) : List Nat :=
  ((b.dropWhile is_whitespace).reverse.dropWhile is_whitespace).reverse

/-! ## String helpers used by the reconciler -/

/-- Substring test on character lists, modelling Rust str::contains for
string patterns. -/
def charsContain (pat : List Char) : List Char → Bool
  | [] => pat.isEmpty
  | c :: t => pat.isPrefixOf (c :: t) || charsContain pat t

/-- Rust str::contains: the pattern occurs somewhere in the string. -/
def strContains (s pat : String) : Bool :=
  charsContain pat.toList s.toList

/-- Rust str::trim_start_matches with a slash pattern: repeatedly remove
every leading slash character. -/
def trimStartSlashes (s : String) : String :=
  ⟨s.toList.dropWhile (fun c => c == '/')⟩

/-- Modelled from the spec: strip a single leading slash from the path,
leaving further slashes in place.  Comparison definition for the claim
about the size-fallback path match. -/
def stripOneLeadingSlash (s : String) : String :=
  match s.toList with
  | '/' :: t => ⟨t⟩
  | _ => s

/-- Rust String::replace of every newline by the empty string, as applied
to the base-64 blob content before decoding. -/
def stripNewlines (s : String) : String :=
  ⟨s.toList.filter (fun c => c != '\n')⟩

/-! ## Base-64 decoding, modelling base64::decode_config with the
standard alphabet as used on the fetched blob -/

/-- Value of one character of the standard base-64 alphabet. -/
def b64Val (c : Char) : Option Nat :=
  if 'A' ≤ c ∧ c ≤ 'Z' then some (c.toNat - 65)
  else if 'a' ≤ c ∧ c ≤ 'z' then some (c.toNat - 97 + 26)
  else if '0' ≤ c ∧ c ≤ '9' then some (c.toNat - 48 + 52)
  else if c = '+' then some 62
  else if c = '/' then some 63
  else none

/-- Decode base-64 four characters at a time, with padding allowed only
in the final quantum; any other shape is a decode failure. -/
def b64Chunks : List Char → Option (List Nat)
  | [] => some []
  | a :: b :: c :: d :: rest =>
    match b64Val a, b64Val b with
    | some va, some vb =>
      if c = '=' then
        if d = '=' ∧ rest = [] then some [va * 4 + vb / 16] else none
      else
        match b64Val c with
        | some vc =>
          if d = '=' then
            if rest = [] then some [va * 4 + vb / 16, vb % 16 * 16 + vc / 4] else none
          else
            match b64Val d with
            | some vd =>
              match b64Chunks rest with
              | some bs => some ((va * 4 + vb / 16) :: (vb % 16 * 16 + vc / 4) :: (vc % 4 * 64 + vd) :: bs)
              | none => none
            | none => none
        | none => none
    | _, _ => none
  | _ => none

/-- base64::decode_config on the standard alphabet. -/
def base64Decode (s : String) : Option (List Nat) :=
  b64Chunks s.toList

/-! ## Data model of the gateway consumed by the reconciler -/

/-- The hubcaps error cases the reconciler distinguishes on the get
path: a rate limit with its reset duration in seconds, a structured
fault with a code and a message, and any other error rendered as a
description string. -/
inductive GetFileError where
  | rateLimit (reset : Nat)
  | fault (code : Nat) (message : String)
  | other (description : String)
  deriving DecidableEq

/-- The file returned by repo.content().file: its decoded bytes and its
content sha. -/
structure GithubFile where
  content : List Nat
  sha : String
  deriving DecidableEq

/-- One entry of the directory listing used by the size fallback. -/
structure DirectoryItem where
  path : String
  sha : String
  deriving DecidableEq

/-- The blob fetched by sha from the git data API: a base-64 string that
may contain embedded newlines. -/
structure GitBlob where
  content : String
  deriving DecidableEq

/-- The remote responses one reconcile call can observe: the get-file
result, the directory listing of the parent, and the blob fetch keyed by
sha.  An error value models the remote call failing. -/
structure Gateway where
  getFile : Except GetFileError GithubFile
  listDirectory : Except Unit (List DirectoryItem)
  blob : String → Except Unit GitBlob

/-- A write call issued to the remote content API, with every argument
the source passes. -/
inductive WriteCall where
  | update (path : String) (bytes : List Nat) (message : String) (sha : String) (branch : String)
  | create (path : String) (bytes : List Nat) (message : String) (branch : String)
  deriving DecidableEq

/-- Observable outcome of one reconcile call: the write calls issued in
order, the diagnostic lines printed in order, and the seconds slept when
a rate limit was hit. -/
structure ReconcileOutput where
  writes : List WriteCall
  diags : List String
  sleptSeconds : Option Nat
  deriving DecidableEq

/-! ## Literal strings of the source -/

def updatingVerb : String := "Updating"

def creatingVerb : String := "Creating"

def tooLargeMarker : String := "too_large"

def modDateMinus : String := "-/ModDate"

def creationDateMinus : String := "-/CreationDate"

def modDatePlus : String := "+/ModDate"

def hunkHeader : String := "@@ -5,8 +5,8 @@"

/-- The commit message template of the source, with the verb filled in
and the misspelling preserved. -/
def commitMessage (verb p : String) : String :=
  verb ++ " file content " ++ p ++
    " programatically\n\nThis is done from the cio repo utils::create_or_update_file function."

/-- Diagnostic printed when the contents already match. -/
def sameDiag (p : String) : String :=
  "[github content] File contents at " ++ p ++ " are the same, no update needed"

/-- Diagnostic printed after issuing an update. -/
def updatedDiag (p : String) : String :=
  "[github content] Updated file at " ++ p

/-- Diagnostic printed after issuing a create. -/
def createdDiag (p : String) : String :=
  "[github content] Created file at " ++ p

/-- Diagnostic printed when the get path fails with an unclassified
error, carrying the rendered error. -/
def getFailedDiag (p e : String) : String :=
  "[github content] Getting the file at " ++ p ++ " failed: " ++ e

/-- Diagnostic printed when the get path is rate limited; it shows the
reset seconds, not the slept seconds. -/
def rateLimitDiag (reset : Nat) : String :=
  "got rate limited, sleeping for " ++ toString reset ++ "s"

/-- The test applied to the rendered diff, preserving the duplicated
creation-date conjunct of the source verbatim. -/
def spuriousCheck (d : String) : Bool :=
  strContains d modDateMinus && strContains d creationDateMinus && strContains d modDatePlus
    && strContains d creationDateMinus && strContains d hunkHeader

/-! ## The reconciler -/

/-- Body executed on the matching directory entry of the size fallback:
fetch the blob by the entry sha (unwrap, so a failure is a panic,
modelled as none), strip newlines, base-64 decode (unwrap again), trim,
then either report no update needed or issue the update against the
entry sha. -/
def handleItem (g : Gateway) (branch filePath : String) (content : List Nat)
    (item : DirectoryItem) : Option ReconcileOutput :=
  match g.blob item.sha with
  | .error _ => none
  | .ok blob =>
    match base64Decode (stripNewlines blob.content) with
    | none => none
    | some decoded =>
      let decodedContent := trim decoded
      if content = decodedContent then
        some ⟨[], [sameDiag filePath], none⟩
      else
        some ⟨[WriteCall.update filePath content (commitMessage updatingVerb filePath) item.sha branch],
          [updatedDiag filePath], none⟩

/-- The for loop of the size fallback: skip every entry whose path does
not equal the file path with all leading slashes stripped; on the first
match run the body; with no match fall out of the loop and return
silently. -/
def fallbackLoop (g : Gateway) (branch filePath : String) (content : List Nat) :
    List DirectoryItem → Option ReconcileOutput
  | [] => some ⟨[], [], none⟩
  | item :: rest =>
    if trimStartSlashes filePath = item.path then
      handleItem g branch filePath content item
    else
      fallbackLoop g branch filePath content rest

/-- Translation of create_or_update_file_in_github_repo.  The diffy
patch rendering is supplied as the createPatch argument; the first
buffer is the trimmed remote content, the second the trimmed desired
content, matching diffy::create_patch_bytes(decoded, content).  The
none result models a panic of the source (an unwrap inside the size
fallback).  Note that the rate-limit arm of the source match has no
return statement, so after sleeping control falls through to the
unconditional create call, exactly as in the fault arm whose message
does not contain the too-large marker. -/
def create_or_update_file_in_github_repo (createPatch : List Nat → List Nat → String)
    (g : Gateway) (branch filePath : String) (newContent : List Nat) : Option ReconcileOutput :=
  let content := trim newContent
  match g.getFile with
  | .ok file =>
    let decoded := trim file.content
    if content = decoded then
      some ⟨[], [sameDiag filePath], none⟩
    else
      let strDiff := createPatch decoded content
      if spuriousCheck strDiff then
        some ⟨[], [sameDiag filePath], none⟩
      else
        some ⟨[WriteCall.update filePath content (commitMessage updatingVerb filePath) file.sha branch],
          [updatedDiag filePath], none⟩
  | .error e =>
    match e with
    | .rateLimit reset =>
      some ⟨[WriteCall.create filePath content (commitMessage creatingVerb filePath) branch],
        [rateLimitDiag reset, createdDiag filePath], some (reset + 5)⟩
    | .fault _ message =>
      if strContains message tooLargeMarker then
        match g.listDirectory with
        | .error _ => none
        | .ok items => fallbackLoop g branch filePath content items
      else
        some ⟨[WriteCall.create filePath content (commitMessage creatingVerb filePath) branch],
          [createdDiag filePath], none⟩
    | .other desc =>
      some ⟨[WriteCall.create filePath content (commitMessage creatingVerb filePath) branch],
        [getFailedDiag filePath desc, createdDiag filePath], none⟩

/-! ## The database repository-list reconciler -/

/-- A call issued to the database mirror, identified by the repository
name, the only key the routine uses. -/
inductive DbCall where
  | upsert (name : String)
  | delete (name : String)
  deriving DecidableEq

/-- Key-set effect of BTreeMap::insert while building the repo map:
inserting an existing name replaces its value and leaves the key set
unchanged; a new name joins the key set.  Iteration order of the map is
immaterial to the claims, so the key list is kept in arrival order. -/
def insertKey (m : List String) (n : String) : List String :=
  if n ∈ m then m else m ++ [n]

/-- The repo map built from the database rows, keyed by name. -/
def buildRepoMap (dbRepos : List String) : List String :=
  dbRepos.foldl insertKey []

/-- BTreeMap::remove of one key. -/
def eraseKey (m : List String) (n : String) : List String :=
  m.erase n

/-- Translation of refresh_db_github_repos at the level of the database
calls it issues: upsert every remotely listed repo while removing its
name from the map, then delete every name left in the map. -/
def refresh_db_github_repos (githubRepos dbRepos : List String) : List DbCall :=
  let m0 := buildRepoMap dbRepos
  let mAfter := githubRepos.foldl eraseKey m0
  githubRepos.map DbCall.upsert ++ mAfter.map DbCall.delete

/-- The name an upsert call carries. -/
def upsertName : DbCall → Option String
  | .upsert n => some n
  | .delete _ => none

/-- The name a delete call carries. -/
def deleteName : DbCall → Option String
  | .upsert _ => none
  | .delete n => some n

/-- Effect of one database call on the set of mirrored names. -/
def applyDbCall (s : Finset String) : DbCall → Finset String
  | .upsert n => insert n s
  | .delete n => s.erase n

/-- Effect of a call sequence on the set of mirrored names. -/
def applyDbCalls (s : Finset String) (cs : List DbCall) : Finset String :=
  cs.foldl applyDbCall s

/-- Recogniser of create calls, used to state when the reconciler
creates. -/
def isCreateCall : WriteCall → Bool
  | .create _ _ _ _ => true
  | .update _ _ _ _ _ => false

/-- The get-file results that reach the unconditional create at the end
of the error arm: every error except a fault whose message contains the
too-large marker. -/
def nonTooLargeError : Except GetFileError GithubFile → Bool
  | .ok _ => false
  | .error (.fault _ message) => !strContains message tooLargeMarker
  | .error (.rateLimit _) => true
  | .error (.other _) => true

/-- The get-file results that send the reconciler into the size
fallback: a fault whose message contains the too-large marker. -/
def entersFallback : Except GetFileError GithubFile → Bool
  | .error (.fault _ message) => strContains message tooLargeMarker
  | .error (.rateLimit _) => false
  | .error (.other _) => false
  | .ok _ => false

/-! ## Concrete fixtures used to evaluate the model -/

/-- A patch renderer producing an empty rendering, used where the
rendered diff is irrelevant. -/
def constPatch : List Nat → List Nat → String :=
  fun _ _ => ""

def mainBranch : String := "main"

def samplePathA : String := "/a.txt"

def doubleSlashPath : String := "//a.txt"

def plainPathA : String := "a.txt"

/-- Base-64 of the bytes of hello followed by a newline. -/
def helloB64 : String := "aGVsbG8K"

def tooLargeMsg : String := "blob is too_large for this API"

/-- The bytes of hello followed by a newline. -/
def helloBytes : List Nat := [104, 101, 108, 108, 111, 10]

/-- Gateway whose get path is rate limited with a seven second reset. -/
def gwRate7 : Gateway := ⟨.error (.rateLimit 7), .ok [], fun _ => .error ()⟩

/-- Gateway whose get path is rate limited with a three second reset. -/
def gwRate3 : Gateway := ⟨.error (.rateLimit 3), .ok [], fun _ => .error ()⟩

/-- Gateway returning a file that differs from the desired bytes only in
leading whitespace. -/
def gwOkSame : Gateway := ⟨.ok ⟨32 :: helloBytes, "h1"⟩, .ok [], fun _ => .error ()⟩

/-- Gateway returning a file whose bytes really differ from the desired
bytes. -/
def gwOkDiff : Gateway := ⟨.ok ⟨[103, 111], "h2"⟩, .ok [], fun _ => .error ()⟩

/-- The directory entry the size fallback can match. -/
def itemA : DirectoryItem := ⟨"a.txt", "h3"⟩

/-- Gateway whose get path fails with a too-large fault and whose
directory listing holds one entry whose blob decodes to the hello
bytes. -/
def gwTooLarge : Gateway :=
  ⟨.error (.fault 403 tooLargeMsg), .ok [itemA], fun _ => .ok ⟨helloB64⟩⟩

/-- Gateway whose get path fails with a too-large fault and whose
directory listing itself fails, which the source unwraps. -/
def gwListFail : Gateway :=
  ⟨.error (.fault 403 tooLargeMsg), .error (), fun _ => .error ()⟩

/-- Gateway whose get path fails with an unclassified error. -/
def gwOther : Gateway := ⟨.error (.other "404 not found"), .ok [], fun _ => .error ()⟩

/-! ## Lemmas about position, rposition and the trimmer -/

theorem position_all_false (p : Nat → Bool) :
    ∀ l : List Nat, (∀ x ∈ l, p x = false) → position p l = none := by
  intro l
  induction l with
  | nil => intro _; rfl
  | cons c t ih =>
    intro h
    have hc := h c (by simp)
    simp [position, hc, ih (fun x hx => h x (by simp [hx]))]

theorem positionW_none :
    ∀ l : List Nat, position is_not_whitespace l = none →
      ∀ x ∈ l, is_whitespace x = true := by
  intro l
  induction l with
  | nil => simp
  | cons c t ih =>
    intro h x hx
    by_cases hc : is_not_whitespace c = true
    · simp [position, hc] at h
    · rw [Bool.not_eq_true] at hc
      simp [position, hc] at h
      rcases List.mem_cons.mp hx with rfl | hxt
      · simpa [is_not_whitespace] using hc
      · exact ih h x hxt

theorem positionW_some :
    ∀ (l : List Nat) (i : Nat), position is_not_whitespace l = some i →
      (l.dropWhile is_whitespace = l.drop i ∧ ∀ y ∈ l.take i, is_whitespace y = true) ∧
      ∃ x xs, l.drop i = x :: xs ∧ is_not_whitespace x = true := by
  intro l
  induction l with
  | nil => intro i h; simp [position] at h
  | cons c t ih =>
    intro i h
    by_cases hc : is_not_whitespace c = true
    · simp [position, hc] at h
      subst h
      have hwc : is_whitespace c = false := by
        revert hc; simp [is_not_whitespace]
      refine ⟨⟨?_, by simp⟩, c, t, by simp, hc⟩
      simp [List.dropWhile_cons, hwc]
    · rw [Bool.not_eq_true] at hc
      have hwc : is_whitespace c = true := by
        revert hc; simp [is_not_whitespace]
      simp [position, hc, Option.map_eq_some'] at h
      obtain ⟨j, hj, rfl⟩ := h
      obtain ⟨⟨hdw, htake⟩, x, xs, hdrop, hx⟩ := ih j hj
      refine ⟨⟨?_, ?_⟩, x, xs, ?_, hx⟩
      · simpa [List.dropWhile_cons, hwc] using hdw
      · intro y hy
        rcases List.mem_cons.mp (by simpa [List.take_succ_cons] using hy) with rfl | hyt
        · exact hwc
        · exact htake y hyt
      · simpa using hdrop

theorem position_append_of_right_false (p : Nat → Bool) (l₂ : List Nat)
    (h₂ : ∀ x ∈ l₂, p x = false) :
    ∀ (l₁ : List Nat) (i : Nat), position p (l₁ ++ l₂) = some i → position p l₁ = some i := by
  intro l₁
  induction l₁ with
  | nil =>
    intro i h
    rw [List.nil_append, position_all_false p l₂ h₂] at h
    exact absurd h (by simp)
  | cons c t ih =>
    intro i h
    by_cases hc : p c = true
    · simp [position, hc] at h ⊢
      exact h
    · rw [Bool.not_eq_true] at hc
      simp [position, hc, Option.map_eq_some'] at h ⊢
      obtain ⟨j, hj, rfl⟩ := h
      exact ⟨j, ih j hj, rfl⟩

theorem trim_eq_trimSpecWs (b : List Nat) : trim b = trimSpecWs b := by
  cases h1 : position is_not_whitespace b with
  | none =>
    have hall := positionW_none b h1
    have hdw : b.dropWhile is_whitespace = [] := List.dropWhile_eq_nil_iff.mpr hall
    simp [trim, h1, trimSpecWs, hdw]
  | some first =>
    obtain ⟨⟨hdw, htake⟩, x, xs, hdropx, hx⟩ := positionW_some b first h1
    cases h2 : position is_not_whitespace b.reverse with
    | none =>
      exfalso
      have hxb : x ∈ b := List.drop_subset first b (by rw [hdropx]; simp)
      have hws := positionW_none b.reverse h2 x (List.mem_reverse.mpr hxb)
      simp [is_not_whitespace, hws] at hx
    | some r =>
      have hfirst : first < b.length := by
        have := congrArg List.length hdropx
        simp [List.length_drop] at this
        omega
      have hrev : b.reverse = (b.drop first).reverse ++ (b.take first).reverse := by
        conv_lhs => rw [← List.take_append_drop first b]
        rw [List.reverse_append]
      have hBall : ∀ y ∈ (b.take first).reverse, is_not_whitespace y = false := by
        intro y hy
        have := htake y (List.mem_reverse.mp hy)
        simp [is_not_whitespace, this]
      have h2' : position is_not_whitespace ((b.drop first).reverse) = some r := by
        apply position_append_of_right_false _ _ hBall
        rw [← hrev]
        exact h2
      obtain ⟨⟨hdwA, _⟩, y, ys, hdropy, _⟩ :=
        positionW_some ((b.drop first).reverse) r h2'
      have hr : r < b.length - first := by
        have := congrArg List.length hdropy
        simp [List.length_drop, List.length_reverse] at this
        omega
      have hlen : (b.drop first).length = b.length - first := List.length_drop first b
      have hspec : trimSpecWs b = (b.drop first).take ((b.drop first).length - r) := by
        unfold trimSpecWs
        rw [hdw, hdwA, List.drop_reverse, List.reverse_reverse]
      simp only [trim, h1, rposition, h2, Option.map_some']
      rw [hspec]
      congr 1
      rw [hlen]
      omega

theorem dropWhile_head_ws :
    ∀ (l : List Nat) (x : Nat) (xs : List Nat),
      l.dropWhile is_whitespace = x :: xs → is_whitespace x = false := by
  intro l
  induction l with
  | nil => intro x xs h; simp at h
  | cons c t ih =>
    intro x xs h
    by_cases hc : is_whitespace c = true
    · rw [List.dropWhile_cons, if_pos hc] at h
      exact ih x xs h
    · rw [Bool.not_eq_true] at hc
      rw [List.dropWhile_cons, if_neg (by simp [hc])] at h
      injection h with h1 _
      subst h1
      exact hc

theorem dropWhile_eq_self_of_head (l : List Nat)
    (h : l.head?.all is_not_whitespace = true) : l.dropWhile is_whitespace = l := by
  cases l with
  | nil => rfl
  | cons c t =>
    have hc : is_whitespace c = false := by
      revert h
      simp [Option.all, is_not_whitespace]
    rw [List.dropWhile_cons, if_neg (by simp [hc])]

theorem trimSpecWs_getLast (b : List Nat) :
    (trimSpecWs b).getLast?.all is_not_whitespace = true := by
  unfold trimSpecWs
  rw [List.getLast?_reverse]
  cases hv : (b.dropWhile is_whitespace).reverse.dropWhile is_whitespace with
  | nil => simp
  | cons c t =>
    have := dropWhile_head_ws _ c t hv
    simp [Option.all, is_not_whitespace, this]

theorem trimSpecWs_head (b : List Nat) :
    (trimSpecWs b).head?.all is_not_whitespace = true := by
  unfold trimSpecWs
  rw [List.head?_reverse]
  cases hv : (b.dropWhile is_whitespace).reverse.dropWhile is_whitespace with
  | nil => simp
  | cons c t =>
    have hsuf : ((b.dropWhile is_whitespace).reverse).dropWhile is_whitespace <:+
        (b.dropWhile is_whitespace).reverse := List.dropWhile_suffix _
    obtain ⟨s, hs⟩ := hsuf
    rw [hv] at hs
    have hgl : (c :: t).getLast? = ((b.dropWhile is_whitespace).reverse).getLast? := by
      rw [← hs]
      exact (List.getLast?_append_of_ne_nil s (by simp)).symm
    rw [hgl, List.getLast?_reverse]
    cases hu : b.dropWhile is_whitespace with
    | nil => simp
    | cons a t2 =>
      have hws := dropWhile_head_ws b a t2 hu
      simp [Option.all, is_not_whitespace, hws]

theorem trimSpecWs_idem (b : List Nat) : trimSpecWs (trimSpecWs b) = trimSpecWs b := by
  have h1 : (trimSpecWs b).dropWhile is_whitespace = trimSpecWs b :=
    dropWhile_eq_self_of_head _ (trimSpecWs_head b)
  have h2 : ((trimSpecWs b).reverse).dropWhile is_whitespace = (trimSpecWs b).reverse := by
    apply dropWhile_eq_self_of_head
    rw [List.head?_reverse]
    exact trimSpecWs_getLast b
  show (((trimSpecWs b).dropWhile is_whitespace).reverse.dropWhile is_whitespace).reverse =
    trimSpecWs b
  rw [h1, h2, List.reverse_reverse]

theorem trimSpecWs_infix (b : List Nat) : trimSpecWs b <:+: b := by
  obtain ⟨s, hs⟩ :=
    (List.dropWhile_suffix is_whitespace : b.dropWhile is_whitespace <:+ b)
  have hsuf2 : ((b.dropWhile is_whitespace).reverse).dropWhile is_whitespace <:+
      (b.dropWhile is_whitespace).reverse := List.dropWhile_suffix _
  obtain ⟨t, ht⟩ := hsuf2
  have hu : b.dropWhile is_whitespace =
      (((b.dropWhile is_whitespace).reverse).dropWhile is_whitespace).reverse ++ t.reverse := by
    have h3 := congrArg List.reverse ht
    rw [List.reverse_append, List.reverse_reverse] at h3
    exact h3.symm
  refine ⟨s, t.reverse, ?_⟩
  show s ++ trimSpecWs b ++ t.reverse = b
  unfold trimSpecWs
  rw [List.append_assoc, ← hu, hs]

/-- C8: for every byte buffer, trim removes exactly the leading and the
trailing bytes that are tab or space, as stated by agreement with the
spec-side double dropWhile; bytes other than tab and space are never
treated as whitespace, and a buffer consisting of whitespace only, the
empty buffer included, trims to the empty buffer. -/
theorem c8_trim_removes_exactly_horizontal_whitespace :
    ∀ b : List Nat, trim b = trimSpecWs b ∧ trim (b.filter is_whitespace) = [] := by
  intro b
  refine ⟨trim_eq_trimSpecWs b, ?_⟩
  have hpos : position is_not_whitespace (b.filter is_whitespace) = none := by
    apply position_all_false
    intro x hx
    have hxw := (List.mem_filter.mp hx).2
    simp [is_not_whitespace, hxw]
  simp [trim, hpos]

/-- C10: trim is idempotent, its result is a contiguous subsequence of
the input, and when the result is non-empty neither its first nor its
last byte is a tab or a space. -/
theorem c10_trim_idempotent_infix_clean_ends :
    ∀ b : List Nat, trim (trim b) = trim b ∧ trim b <:+: b ∧
      (trim b).head?.all is_not_whitespace = true ∧
      (trim b).getLast?.all is_not_whitespace = true := by
  intro b
  rw [trim_eq_trimSpecWs b, trim_eq_trimSpecWs (trimSpecWs b)]
  exact ⟨trimSpecWs_idem b, trimSpecWs_infix b, trimSpecWs_head b, trimSpecWs_getLast b⟩

/-! ## Lemmas about the size-fallback loop -/

theorem fallbackLoop_none_match (g : Gateway) (branch filePath : String) (content : List Nat) :
    ∀ items : List DirectoryItem, (∀ it ∈ items, trimStartSlashes filePath ≠ it.path) →
      fallbackLoop g branch filePath content items = some ⟨[], [], none⟩ := by
  intro items
  induction items with
  | nil => intro _; rfl
  | cons item rest ih =>
    intro hall
    have hne := hall item (by simp)
    simp only [fallbackLoop, if_neg hne]
    exact ih (fun x hx => hall x (by simp [hx]))

theorem fallbackLoop_first_match (g : Gateway) (branch filePath : String) (content : List Nat) :
    ∀ (pre : List DirectoryItem) (item : DirectoryItem) (post : List DirectoryItem),
      (∀ it ∈ pre, trimStartSlashes filePath ≠ it.path) →
      trimStartSlashes filePath = item.path →
      fallbackLoop g branch filePath content (pre ++ item :: post) =
        handleItem g branch filePath content item := by
  intro pre
  induction pre with
  | nil =>
    intro item post _ hmatch
    simp only [List.nil_append, fallbackLoop, if_pos hmatch]
  | cons it pre' ih =>
    intro item post hpre hmatch
    have hne := hpre it (by simp)
    simp only [List.cons_append, fallbackLoop, if_neg hne]
    exact ih item post (fun x hx => hpre x (by simp [hx])) hmatch

theorem handleItem_no_create (g : Gateway) (branch filePath : String) (content : List Nat)
    (item : DirectoryItem) (out : ReconcileOutput)
    (h : handleItem g branch filePath content item = some out) :
    out.writes.any isCreateCall = false := by
  simp only [handleItem] at h
  split at h
  · simp at h
  · split at h
    · simp at h
    · split at h
      · injection h with h'
        subst h'
        rfl
      · injection h with h'
        subst h'
        rfl

theorem fallbackLoop_no_create (g : Gateway) (branch filePath : String) (content : List Nat) :
    ∀ (items : List DirectoryItem) (out : ReconcileOutput),
      fallbackLoop g branch filePath content items = some out →
      out.writes.any isCreateCall = false := by
  intro items
  induction items with
  | nil =>
    intro out h
    simp only [fallbackLoop] at h
    injection h with h'
    subst h'
    rfl
  | cons item rest ih =>
    intro out h
    simp only [fallbackLoop] at h
    split at h
    · exact handleItem_no_create g branch filePath content item out h
    · exact ih out h

/-! ## Claims about the rate-limit path -/

/-- C1 counterexample: with get-file rate limited at a seven second
reset, the reconciler sleeps twelve seconds but does issue a write call,
namely a create, so the call does not return without performing any
write call. -/
theorem c1_rate_limited_write_counterexample :
    create_or_update_file_in_github_repo constPatch gwRate7 mainBranch samplePathA helloBytes =
      some ⟨[WriteCall.create samplePathA helloBytes (commitMessage creatingVerb samplePathA) mainBranch],
        [rateLimitDiag 7, createdDiag samplePathA], some 12⟩ ∧
    [WriteCall.create samplePathA helloBytes (commitMessage creatingVerb samplePathA) mainBranch] ≠
      ([] : List WriteCall) := by
  exact ⟨by decide, by simp⟩

/-- C1 amended: on a rate-limit failure carrying reset the reconciler
sleeps reset plus five seconds and performs no update call, but the
source match arm has no return statement, so it then falls through and
issues exactly one create call before returning. -/
theorem c1_rate_limit_sleeps_and_creates (cp : List Nat → List Nat → String)
    (g : Gateway) (branch filePath : String) (newContent : List Nat) (reset : Nat)
    (h : g.getFile = .error (.rateLimit reset)) :
    create_or_update_file_in_github_repo cp g branch filePath newContent =
      some ⟨[WriteCall.create filePath (trim newContent) (commitMessage creatingVerb filePath) branch],
        [rateLimitDiag reset, createdDiag filePath], some (reset + 5)⟩ := by
  simp [create_or_update_file_in_github_repo, h]

/-- C1 witness: the amended statement evaluated on the concrete
rate-limited gateway with a three second reset. -/
theorem c1_rate_limit_sleeps_and_creates_witness :
    create_or_update_file_in_github_repo constPatch gwRate3 mainBranch samplePathA helloBytes =
      some ⟨[WriteCall.create samplePathA (trim helloBytes) (commitMessage creatingVerb samplePathA) mainBranch],
        [rateLimitDiag 3, createdDiag samplePathA], some (3 + 5)⟩ :=
  c1_rate_limit_sleeps_and_creates constPatch gwRate3 mainBranch samplePathA helloBytes 3 rfl

/-- C2 counterexample: with get-file rate limited, a create call is
issued, so creation is not restricted to not-found style failures. -/
theorem c2_create_on_rate_limit_counterexample :
    create_or_update_file_in_github_repo constPatch gwRate3 mainBranch plainPathA [104] =
      some ⟨[WriteCall.create plainPathA [104] (commitMessage creatingVerb plainPathA) mainBranch],
        [rateLimitDiag 3, createdDiag plainPathA], some 8⟩ ∧
    isCreateCall (WriteCall.create plainPathA [104] (commitMessage creatingVerb plainPathA) mainBranch) =
      true := by
  exact ⟨by decide, rfl⟩

/-- C2 amended: on every reconcile call that returns, a create call is
issued exactly when the initial get-file failed with an error that is
not a fault whose message contains the too-large marker; in particular
never when get-file succeeded or on a too-large fault, but also after a
rate-limit failure. -/
theorem c2_create_iff_error_without_too_large (cp : List Nat → List Nat → String)
    (g : Gateway) (branch filePath : String) (newContent : List Nat) (out : ReconcileOutput)
    (h : create_or_update_file_in_github_repo cp g branch filePath newContent = some out) :
    out.writes.any isCreateCall = nonTooLargeError g.getFile := by
  cases hg : g.getFile with
  | ok file =>
    simp only [create_or_update_file_in_github_repo, hg] at h
    simp only [nonTooLargeError]
    split at h
    · injection h with h'
      subst h'
      rfl
    · split at h
      · injection h with h'
        subst h'
        rfl
      · injection h with h'
        subst h'
        rfl
  | error e =>
    cases e with
    | rateLimit reset =>
      simp only [create_or_update_file_in_github_repo, hg] at h
      injection h with h'
      subst h'
      rfl
    | fault code message =>
      by_cases hm : strContains message tooLargeMarker = true
      · simp only [create_or_update_file_in_github_repo, hg, hm, if_true] at h
        simp only [nonTooLargeError, hm, Bool.not_true]
        cases hl : g.listDirectory with
        | error u => rw [hl] at h; simp at h
        | ok items =>
          rw [hl] at h
          exact fallbackLoop_no_create g branch filePath (trim newContent) items out h
      · rw [Bool.not_eq_true] at hm
        simp only [create_or_update_file_in_github_repo, hg, hm, Bool.false_eq_true,
          if_false] at h
        injection h with h'
        subst h'
        simp [nonTooLargeError, hg, hm, isCreateCall]
    | other desc =>
      simp only [create_or_update_file_in_github_repo, hg] at h
      injection h with h'
      subst h'
      rfl

/-- C2 witness: the amended statement evaluated on the concrete
rate-limited gateway, where the create call is visible in the output. -/
theorem c2_create_iff_error_without_too_large_witness :
    (⟨[WriteCall.create plainPathA [104] (commitMessage creatingVerb plainPathA) mainBranch],
        [rateLimitDiag 3, createdDiag plainPathA], some 8⟩ : ReconcileOutput).writes.any
        isCreateCall =
      nonTooLargeError gwRate3.getFile :=
  c2_create_iff_error_without_too_large constPatch gwRate3 mainBranch plainPathA [104]
    ⟨[WriteCall.create plainPathA [104] (commitMessage creatingVerb plainPathA) mainBranch],
      [rateLimitDiag 3, createdDiag plainPathA], some 8⟩ (by decide)

/-- C3: whenever the trimmed remote bytes equal the trimmed desired
bytes, whether the remote bytes come from a successful get-file or from
the decoded blob of the first matching entry of the too-large size
fallback, the reconciler performs zero write calls and emits the
no-update-needed diagnostic. -/
theorem c3_no_write_when_trimmed_equal :
    (∀ (cp : List Nat → List Nat → String) (g : Gateway) (branch filePath : String)
        (newContent : List Nat) (file : GithubFile),
      g.getFile = .ok file → trim file.content = trim newContent →
      create_or_update_file_in_github_repo cp g branch filePath newContent =
        some ⟨[], [sameDiag filePath], none⟩) ∧
    (∀ (cp : List Nat → List Nat → String) (g : Gateway) (branch filePath : String)
        (newContent : List Nat) (code : Nat) (message : String)
        (pre post : List DirectoryItem) (item : DirectoryItem) (blob : GitBlob) (bs : List Nat),
      g.getFile = .error (.fault code message) →
      strContains message tooLargeMarker = true →
      g.listDirectory = .ok (pre ++ item :: post) →
      (∀ it ∈ pre, trimStartSlashes filePath ≠ it.path) →
      trimStartSlashes filePath = item.path →
      g.blob item.sha = .ok blob →
      base64Decode (stripNewlines blob.content) = some bs →
      trim bs = trim newContent →
      create_or_update_file_in_github_repo cp g branch filePath newContent =
        some ⟨[], [sameDiag filePath], none⟩) := by
  constructor
  · intro cp g branch filePath newContent file hg he
    simp [create_or_update_file_in_github_repo, hg, he]
  · intro cp g branch filePath newContent code message pre post item blob bs hg hm hl hpre
      hmatch hb hd he
    simp only [create_or_update_file_in_github_repo, hg, hm, if_true, hl]
    rw [fallbackLoop_first_match g branch filePath (trim newContent) pre item post hpre hmatch]
    simp [handleItem, hb, hd, he]

/-- C3 witness: the statement evaluated on the get-path gateway whose
remote bytes differ only by leading whitespace, and on the too-large
gateway whose blob decodes to the desired bytes. -/
theorem c3_no_write_when_trimmed_equal_witness :
    create_or_update_file_in_github_repo constPatch gwOkSame mainBranch samplePathA helloBytes =
        some ⟨[], [sameDiag samplePathA], none⟩ ∧
    create_or_update_file_in_github_repo constPatch gwTooLarge mainBranch plainPathA helloBytes =
        some ⟨[], [sameDiag plainPathA], none⟩ := by
  constructor
  · exact c3_no_write_when_trimmed_equal.1 constPatch gwOkSame mainBranch samplePathA
      helloBytes ⟨32 :: helloBytes, "h1"⟩ rfl (by decide)
  · exact c3_no_write_when_trimmed_equal.2 constPatch gwTooLarge mainBranch plainPathA
      helloBytes 403 tooLargeMsg [] [] itemA ⟨helloB64⟩ helloBytes rfl (by decide) rfl
      (by simp) (by decide) rfl (by decide) rfl

/-- C4: when get-file succeeds and the trimmed buffers differ with a
diff the spurious check rejects, exactly one update call is issued,
carrying the trimmed desired bytes, the content sha returned by
get-file, and the literal commit message template with its
misspelling. -/
theorem c4_update_call_exact (cp : List Nat → List Nat → String)
    (g : Gateway) (branch filePath : String) (newContent : List Nat) (file : GithubFile)
    (hg : g.getFile = .ok file)
    (hne : trim newContent ≠ trim file.content)
    (hsp : spuriousCheck (cp (trim file.content) (trim newContent)) = false) :
    create_or_update_file_in_github_repo cp g branch filePath newContent =
      some ⟨[WriteCall.update filePath (trim newContent)
          ("Updating file content " ++ filePath ++
            " programatically\n\nThis is done from the cio repo utils::create_or_update_file function.")
          file.sha branch],
        [updatedDiag filePath], none⟩ := by
  simp only [create_or_update_file_in_github_repo, hg]
  rw [if_neg hne, if_neg (by simp [hsp])]
  rfl

/-- C4 witness: the statement evaluated on the gateway whose file
really differs from the desired bytes. -/
theorem c4_update_call_exact_witness :
    create_or_update_file_in_github_repo constPatch gwOkDiff mainBranch samplePathA helloBytes =
      some ⟨[WriteCall.update samplePathA (trim helloBytes)
          ("Updating file content " ++ samplePathA ++
            " programatically\n\nThis is done from the cio repo utils::create_or_update_file function.")
          "h2" mainBranch],
        [updatedDiag samplePathA], none⟩ :=
  c4_update_call_exact constPatch gwOkDiff mainBranch samplePathA helloBytes
    ⟨[103, 111], "h2"⟩ rfl (by decide) (by decide)

/-- C5 counterexample: on the path with two leading slashes the source
strips both, so the entry with path a.txt is treated as the target and
updated, although stripping a single leading slash leaves a path that
differs from the entry path. -/
theorem c5_single_slash_strip_counterexample :
    stripOneLeadingSlash doubleSlashPath ≠ itemA.path ∧
    trimStartSlashes doubleSlashPath = itemA.path ∧
    create_or_update_file_in_github_repo constPatch gwTooLarge mainBranch doubleSlashPath [104] =
      some ⟨[WriteCall.update doubleSlashPath [104]
          ("Updating file content " ++ doubleSlashPath ++
            " programatically\n\nThis is done from the cio repo utils::create_or_update_file function.")
          "h3" mainBranch],
        [updatedDiag doubleSlashPath], none⟩ := by
  exact ⟨by decide, by decide, by decide⟩

/-- C5 amended: in the size fallback an entry is treated as the target
file exactly when its path equals the target path with every leading
slash stripped; entries failing this are skipped, and if no entry
satisfies it the fallback returns silently without any write. -/
theorem c5_fallback_match_all_leading_slashes (cp : List Nat → List Nat → String)
    (g : Gateway) (branch filePath : String) (newContent : List Nat)
    (code : Nat) (message : String) (items : List DirectoryItem)
    (hg : g.getFile = .error (.fault code message))
    (hm : strContains message tooLargeMarker = true)
    (hl : g.listDirectory = .ok items) :
    ((∀ it ∈ items, trimStartSlashes filePath ≠ it.path) →
      create_or_update_file_in_github_repo cp g branch filePath newContent =
        some ⟨[], [], none⟩) ∧
    (∀ pre item post, items = pre ++ item :: post →
      (∀ it ∈ pre, trimStartSlashes filePath ≠ it.path) →
      trimStartSlashes filePath = item.path →
      create_or_update_file_in_github_repo cp g branch filePath newContent =
        handleItem g branch filePath (trim newContent) item) := by
  constructor
  · intro hall
    simp only [create_or_update_file_in_github_repo, hg, hm, if_true, hl]
    exact fallbackLoop_none_match g branch filePath (trim newContent) items hall
  · intro pre item post hitems hpre hmatch
    subst hitems
    simp only [create_or_update_file_in_github_repo, hg, hm, if_true, hl]
    exact fallbackLoop_first_match g branch filePath (trim newContent) pre item post hpre hmatch

/-- C5 witness: the amended statement evaluated on the too-large gateway
with the double-slash path, whose single entry matches after stripping
all leading slashes. -/
theorem c5_fallback_match_all_leading_slashes_witness :
    create_or_update_file_in_github_repo constPatch gwTooLarge mainBranch doubleSlashPath [104] =
      handleItem gwTooLarge mainBranch doubleSlashPath (trim [104]) itemA :=
  (c5_fallback_match_all_leading_slashes constPatch gwTooLarge mainBranch doubleSlashPath
      [104] 403 tooLargeMsg [itemA] rfl (by decide) rfl).2
    [] itemA [] rfl (by simp) (by decide)

/-- C6: the spurious-diff decision on the rendered diff of the two
trimmed buffers is true exactly when the rendering contains the hunk
header and the three date marker substrings simultaneously; the
duplicated creation-date conjunct of the source is logically
redundant. -/
theorem c6_spurious_decision_iff_four_markers (cp : List Nat → List Nat → String)
    (old new : List Nat) :
    spuriousCheck (cp old new) =
      (strContains (cp old new) hunkHeader && strContains (cp old new) modDateMinus &&
        strContains (cp old new) creationDateMinus && strContains (cp old new) modDatePlus) := by
  cases h1 : strContains (cp old new) modDateMinus <;>
    cases h2 : strContains (cp old new) creationDateMinus <;>
      cases h3 : strContains (cp old new) modDatePlus <;>
        cases h4 : strContains (cp old new) hunkHeader <;>
          simp [spuriousCheck, h1, h2, h3, h4]

/-- C7 counterexample: when the get path fails with a too-large fault
and the directory listing fails, the source unwraps the listing and
panics, modelled as the none result, so the call does not return
normally for every gateway behaviour. -/
theorem c7_fallback_list_failure_panics_counterexample :
    create_or_update_file_in_github_repo constPatch gwListFail mainBranch samplePathA helloBytes =
      none := by
  decide

/-- C7 amended: the reconciler returns normally, swallowing write
failures, whenever the get-file result does not send it into the
too-large size fallback; inside the fallback a directory-listing
failure is unwrapped and panics instead of being logged or swallowed,
as do blob-fetch and base-64 failures on the matching entry. -/
theorem c7_returns_outside_fallback_panics_inside (cp : List Nat → List Nat → String)
    (g : Gateway) (branch filePath : String) (newContent : List Nat) :
    (entersFallback g.getFile = false →
      (create_or_update_file_in_github_repo cp g branch filePath newContent).isSome = true) ∧
    (∀ code message, g.getFile = .error (.fault code message) →
      strContains message tooLargeMarker = true →
      g.listDirectory = .error () →
      create_or_update_file_in_github_repo cp g branch filePath newContent = none) := by
  constructor
  · intro hf
    cases hg : g.getFile with
    | ok file =>
      simp only [create_or_update_file_in_github_repo, hg]
      split
      · rfl
      · split
        · rfl
        · rfl
    | error e =>
      cases e with
      | rateLimit reset => simp [create_or_update_file_in_github_repo, hg]
      | fault code message =>
        rw [hg] at hf
        simp only [entersFallback] at hf
        simp [create_or_update_file_in_github_repo, hg, hf]
      | other desc => simp [create_or_update_file_in_github_repo, hg]
  · intro code message hg hm hl
    simp [create_or_update_file_in_github_repo, hg, hm, hl]

/-- C7 witness: the amended statement evaluated on the unclassified
error gateway, which returns normally, and on the gateway whose listing
fails inside the fallback, which panics. -/
theorem c7_returns_outside_fallback_panics_inside_witness :
    (create_or_update_file_in_github_repo constPatch gwOther mainBranch samplePathA
        helloBytes).isSome = true ∧
    create_or_update_file_in_github_repo constPatch gwListFail mainBranch samplePathA
        helloBytes = none :=
  ⟨(c7_returns_outside_fallback_panics_inside constPatch gwOther mainBranch samplePathA
      helloBytes).1 (by decide),
   (c7_returns_outside_fallback_panics_inside constPatch gwListFail mainBranch samplePathA
      helloBytes).2 403 tooLargeMsg rfl (by decide) rfl⟩

/-! ## Lemmas about the database repository-list reconciler -/

theorem foldl_insertKey_mem :
    ∀ (l acc : List String) (x : String),
      x ∈ l.foldl insertKey acc ↔ x ∈ acc ∨ x ∈ l := by
  intro l
  induction l with
  | nil => intro acc x; simp
  | cons n t ih =>
    intro acc x
    rw [List.foldl_cons, ih]
    by_cases hn : n ∈ acc
    · simp only [insertKey, if_pos hn, List.mem_cons]
      constructor
      · rintro (h | h)
        · exact Or.inl h
        · exact Or.inr (Or.inr h)
      · rintro (h | rfl | h)
        · exact Or.inl h
        · exact Or.inl hn
        · exact Or.inr h
    · simp only [insertKey, if_neg hn, List.mem_append, List.mem_singleton, List.mem_cons]
      tauto

theorem foldl_insertKey_nodup :
    ∀ (l acc : List String), acc.Nodup → (l.foldl insertKey acc).Nodup := by
  intro l
  induction l with
  | nil => intro acc h; simpa using h
  | cons n t ih =>
    intro acc h
    rw [List.foldl_cons]
    apply ih
    by_cases hn : n ∈ acc
    · simpa [insertKey, hn] using h
    · rw [insertKey, if_neg hn]
      simp [List.nodup_append, h, hn]

theorem foldl_eraseKey_spec :
    ∀ (rs m : List String), m.Nodup →
      (rs.foldl eraseKey m).Nodup ∧
      ∀ x, x ∈ rs.foldl eraseKey m ↔ x ∈ m ∧ x ∉ rs := by
  intro rs
  induction rs with
  | nil => intro m h; simpa using h
  | cons r t ih =>
    intro m h
    rw [List.foldl_cons]
    have hm' : (eraseKey m r).Nodup := by
      rw [eraseKey]
      exact h.erase r
    obtain ⟨h1, h2⟩ := ih (eraseKey m r) hm'
    refine ⟨h1, ?_⟩
    intro x
    rw [h2]
    rw [eraseKey, List.Nodup.mem_erase_iff h]
    simp only [List.mem_cons]
    tauto

theorem filterMap_upsertName_map_upsert (l : List String) :
    (l.map DbCall.upsert).filterMap upsertName = l := by
  induction l with
  | nil => rfl
  | cons n t ih => simp [upsertName, ih]

theorem filterMap_upsertName_map_delete (l : List String) :
    (l.map DbCall.delete).filterMap upsertName = [] := by
  induction l with
  | nil => rfl
  | cons n t ih => simp [upsertName, ih]

theorem filterMap_deleteName_map_upsert (l : List String) :
    (l.map DbCall.upsert).filterMap deleteName = [] := by
  induction l with
  | nil => rfl
  | cons n t ih => simp [deleteName, ih]

theorem filterMap_deleteName_map_delete (l : List String) :
    (l.map DbCall.delete).filterMap deleteName = l := by
  induction l with
  | nil => rfl
  | cons n t ih => simp [deleteName, ih]

theorem foldl_applyDbCall_upserts :
    ∀ (l : List String) (s : Finset String),
      List.foldl applyDbCall s (l.map DbCall.upsert) = s ∪ l.toFinset := by
  intro l
  induction l with
  | nil => intro s; simp
  | cons n t ih =>
    intro s
    rw [List.map_cons, List.foldl_cons]
    rw [show applyDbCall s (DbCall.upsert n) = insert n s from rfl]
    rw [ih (insert n s)]
    ext x
    simp only [Finset.mem_union, Finset.mem_insert, List.toFinset_cons, List.mem_toFinset]
    tauto

theorem foldl_applyDbCall_deletes :
    ∀ (l : List String) (s : Finset String),
      List.foldl applyDbCall s (l.map DbCall.delete) = s \ l.toFinset := by
  intro l
  induction l with
  | nil => intro s; simp
  | cons n t ih =>
    intro s
    rw [List.map_cons, List.foldl_cons]
    rw [show applyDbCall s (DbCall.delete n) = s.erase n from rfl]
    rw [ih (s.erase n)]
    ext x
    simp only [Finset.mem_sdiff, Finset.mem_erase, Finset.mem_insert, List.toFinset_cons,
      List.mem_toFinset]
    tauto

/-- C9: the database refresh issues one upsert per remotely listed
repository in order, issues deletes exactly for the mirrored names
absent from the remote list with no name deleted twice, and applying the
issued calls to the mirrored name set yields exactly the remote name
set. -/
theorem c9_refresh_db_symmetric_difference :
    ∀ remote dbRepos : List String,
      (refresh_db_github_repos remote dbRepos).filterMap upsertName = remote ∧
      ((refresh_db_github_repos remote dbRepos).filterMap deleteName).Nodup ∧
      ((refresh_db_github_repos remote dbRepos).filterMap deleteName).toFinset =
        dbRepos.toFinset \ remote.toFinset ∧
      applyDbCalls dbRepos.toFinset (refresh_db_github_repos remote dbRepos) =
        remote.toFinset := by
  intro remote dbRepos
  have hm0nodup : (buildRepoMap dbRepos).Nodup :=
    foldl_insertKey_nodup dbRepos [] (by simp)
  have hm0mem : ∀ x, x ∈ buildRepoMap dbRepos ↔ x ∈ dbRepos := by
    intro x
    rw [buildRepoMap, foldl_insertKey_mem]
    simp
  obtain ⟨hAnodup, hAmem⟩ := foldl_eraseKey_spec remote (buildRepoMap dbRepos) hm0nodup
  simp only [refresh_db_github_repos]
  refine ⟨?_, ?_, ?_, ?_⟩
  · rw [List.filterMap_append, filterMap_upsertName_map_upsert,
      filterMap_upsertName_map_delete, List.append_nil]
  · rw [List.filterMap_append, filterMap_deleteName_map_upsert, List.nil_append,
      filterMap_deleteName_map_delete]
    exact hAnodup
  · rw [List.filterMap_append, filterMap_deleteName_map_upsert, List.nil_append,
      filterMap_deleteName_map_delete]
    ext x
    simp only [List.mem_toFinset, Finset.mem_sdiff]
    rw [hAmem x, hm0mem x]
  · rw [applyDbCalls, List.foldl_append, foldl_applyDbCall_upserts remote dbRepos.toFinset,
      foldl_applyDbCall_deletes]
    ext x
    simp only [Finset.mem_sdiff, Finset.mem_union, List.mem_toFinset]
    rw [hAmem x, hm0mem x]
    tauto
